import Mathlib

/-!
A verification development for the markdown renderer of sosumi.ai
(src/lib/render.ts).  The TypeScript functions are shallowly embedded as
Lean functions.  JavaScript strings are modelled as Lean `String`
(operating on `String.data : List Char`), absent (`undefined`) fields as
`Option`, and the few expressions that can throw (the `URL` constructor,
`"#".repeat` with a negative count, indexing `swift[0]` of an empty
array) as `Except String`.  The wall clock read by `new Date()` is passed
as an explicit `now : String` parameter.
-/

set_option maxRecDepth 8192

/-! ## JavaScript string semantics helpers -/

/-- Truthiness of an optional JS string: `undefined` and `""` are falsy. -/
def jsStrTruthy : Option String → Bool
  | some s => !s.isEmpty
  | none => false

/-- JS `a || b` for an optional string `a` and string default `b`. -/
def jsOrStr (a : Option String) (b : String) : String :=
  match a with
  | some s => if s.isEmpty then b else s
  | none => b

/-- JS `a || b` for an optional number `a` (0 is falsy) and default `b`. -/
def jsOrInt (a : Option Int) (b : Int) : Int :=
  match a with
  | some n => if n = 0 then b else n
  | none => b

/-- JS template-literal interpolation of a possibly-undefined string:
`undefined` prints as the literal text `"undefined"`. -/
def tmplStr : Option String → String
  | some s => s
  | none => "undefined"

/-- The whitespace class used by JS `trim` / `\s` (ASCII portion). -/
def isWS (c : Char) : Bool := c = ' ' || c = '\t' || c = '\n' || c = '\r'

/-- JS `\w` word characters: ASCII letters, digits and underscore. -/
def isWordChar (c : Char) : Bool := c.isAlpha || c.isDigit || c = '_'

/-- Char-level JS `String.prototype.trim`. -/
def trimData (l : List Char) : List Char :=
  ((l.dropWhile isWS).reverse.dropWhile isWS).reverse

/-- JS `s.trim()`. -/
def jsTrim (s : String) : String := ⟨trimData s.data⟩

/-- Char-level model of `s.replace(/\n\n$/, "")`: remove one trailing
`"\n\n"` if present. -/
def dropNNData (l : List Char) : List Char :=
  match l.reverse with
  | '\n' :: '\n' :: rest => rest.reverse
  | _ => l

/-- JS `s.replace(/\n\n$/, "")`. -/
def dropNN (s : String) : String := ⟨dropNNData s.data⟩

/-- Char-level model of `s.replace(/\n/g, "\n> ")`. -/
def replNLData : List Char → List Char
  | [] => []
  | c :: rest =>
    if c = '\n' then '\n' :: '>' :: ' ' :: replNLData rest
    else c :: replNLData rest

/-- JS `s.replace(/\n/g, "\n> ")`. -/
def replNL (s : String) : String := ⟨replNLData s.data⟩

/-- Char-level model of `s.replace(/([a-z])([A-Z])/g, "$1 $2")`; after a
match the scan resumes after the uppercase letter, as JS global regex
replacement does. -/
def camelSplitData : List Char → List Char
  | a :: b :: rest =>
    if a.isLower && b.isUpper then a :: ' ' :: b :: camelSplitData rest
    else a :: camelSplitData (b :: rest)
  | l => l

/-- Char-level model of `s.replace(/\s+/g, " ")`; the flag records whether
the previous character was whitespace (a run prints one space). -/
def collapseWSData : Bool → List Char → List Char
  | _, [] => []
  | prev, c :: rest =>
    if isWS c then
      if prev then collapseWSData true rest
      else ' ' :: collapseWSData true rest
    else c :: collapseWSData false rest

/-- Char-level model of `s.replace(pat, "")` for a plain-string pattern:
remove the first occurrence of `pat`, if any. -/
def removeFirstData (pat : List Char) : List Char → List Char
  | [] => []
  | c :: rest =>
    if pat.isPrefixOf (c :: rest) then (c :: rest).drop pat.length
    else c :: removeFirstData pat rest

/-- JS `s.replace(pat, "")` for a plain-string `pat`. -/
def removeFirst (pat : String) (s : String) : String :=
  ⟨removeFirstData pat.data s.data⟩

/-- JS `s.charAt(0).toUpperCase() + s.slice(1)` (ASCII case mapping). -/
def capitalizeFirst (s : String) : String :=
  match s.data with
  | [] => ""
  | c :: rest => ⟨c.toUpper :: rest⟩

/-- Split on a separator character (the semantics JS `split` and Lean
`String.splitOn` share for a one-character separator): empty pieces are
kept, the empty string yields one empty piece. -/
def splitCharAux (sep : Char) : List Char → List Char → List String
  | [], acc => [⟨acc.reverse⟩]
  | c :: rest, acc =>
    if c = sep then (⟨acc.reverse⟩ : String) :: splitCharAux sep rest []
    else splitCharAux sep rest (c :: acc)

/-- JS `s.split("/")`. -/
def splitSlash (s : String) : List String :=
  splitCharAux '/' s.data []

/-- Split a character list around the first occurrence of `"://"`. -/
def findSchemeSplit : List Char → Option (List Char × List Char)
  | [] => none
  | c :: rest =>
    if [':', '/', '/'].isPrefixOf (c :: rest) then some ([], rest.drop 2)
    else
      match findSchemeSplit rest with
      | some (pre, post) => some (c :: pre, post)
      | none => none

/-- ASCII lower-casing of a string (JS `toLowerCase` on ASCII input). -/
def jsToLower (s : String) : String := ⟨s.data.map Char.toLower⟩

/-! ## Data model (src/lib/types.ts)

`ContentItem` is the loosely-typed tagged-union node; every field the
renderer reads is optional.  `code` may be a single string or an array of
lines (`string | string[]`). -/

/-- The `string | string[]` type of the `code` field. -/
inductive CodeVal where
  | str (s : String)
  | arr (l : List String)

/-- A text fragment `{text?, type?}` as read by the renderer (`join`
coerces an `undefined` text to `""`). -/
structure TextFragment where
  text : Option String
  type : Option String

/-- The recursive documentation-content node.  Field order:
type, text, title, identifier, identifiers, url, level, style, code,
lang (the TS field named syntax), content, inlineContent, items,
abstract. -/
inductive ContentItem where
  | mk
    (type text title identifier : Option String)
    (identifiers : Option (List String))
    (url : Option String)
    (level : Option Int)
    (style : Option String)
    (code : Option CodeVal)
    (lang : Option String)
    (content inlineContent items : Option (List ContentItem))
    (abstract : Option (List TextFragment))

def ContentItem.type : ContentItem → Option String
  | .mk ty _ _ _ _ _ _ _ _ _ _ _ _ _ => ty

def ContentItem.text : ContentItem → Option String
  | .mk _ te _ _ _ _ _ _ _ _ _ _ _ _ => te

def ContentItem.title : ContentItem → Option String
  | .mk _ _ ti _ _ _ _ _ _ _ _ _ _ _ => ti

def ContentItem.identifier : ContentItem → Option String
  | .mk _ _ _ idf _ _ _ _ _ _ _ _ _ _ => idf

def ContentItem.identifiers : ContentItem → Option (List String)
  | .mk _ _ _ _ ids _ _ _ _ _ _ _ _ _ => ids

def ContentItem.url : ContentItem → Option String
  | .mk _ _ _ _ _ u _ _ _ _ _ _ _ _ => u

def ContentItem.level : ContentItem → Option Int
  | .mk _ _ _ _ _ _ lv _ _ _ _ _ _ _ => lv

def ContentItem.style : ContentItem → Option String
  | .mk _ _ _ _ _ _ _ st _ _ _ _ _ _ => st

def ContentItem.code : ContentItem → Option CodeVal
  | .mk _ _ _ _ _ _ _ _ cd _ _ _ _ _ => cd

def ContentItem.lang : ContentItem → Option String
  | .mk _ _ _ _ _ _ _ _ _ lg _ _ _ _ => lg

def ContentItem.content : ContentItem → Option (List ContentItem)
  | .mk _ _ _ _ _ _ _ _ _ _ co _ _ _ => co

def ContentItem.inlineContent : ContentItem → Option (List ContentItem)
  | .mk _ _ _ _ _ _ _ _ _ _ _ ic _ _ => ic

def ContentItem.items : ContentItem → Option (List ContentItem)
  | .mk _ _ _ _ _ _ _ _ _ _ _ _ it _ => it

def ContentItem.abstract : ContentItem → Option (List TextFragment)
  | .mk _ _ _ _ _ _ _ _ _ _ _ _ _ ab => ab

/-- The flat reference table `Record<string, ContentItem>`; JS property
lookup is modelled by association-list lookup (keys unique). -/
def RefTable := List (String × ContentItem)

/-- `references?.[id]`. -/
def refLookup (references : Option RefTable) (id : String) : Option ContentItem :=
  match references with
  | some t => List.lookup id t
  | none => none

/-- A variant entry as read by the renderer: identifier, title, abstract. -/
structure Variant where
  identifier : Option String
  title : Option String
  abstract : Option (List TextFragment)

/-- A topic section `{title, identifiers?}`. -/
structure TopicSection where
  title : String
  identifiers : Option (List String)

/-- A see-also section `{title, identifiers?}`. -/
structure SeeAlsoSection where
  title : String
  identifiers : Option (List String)

/-- A declaration token `{text?}`. -/
structure Token where
  text : Option String

/-- A declaration `{tokens?}`. -/
structure Declaration where
  tokens : Option (List Token)

/-- A parameter `{name, content?}`. -/
structure Parameter where
  name : String
  content : Option (List ContentItem)

/-- A primary content section `{kind, content?, declarations?, parameters?}`. -/
structure PrimaryContentSection where
  kind : String
  content : Option (List ContentItem)
  declarations : Option (List Declaration)
  parameters : Option (List Parameter)

/-- A platform availability record. -/
structure Platform where
  name : Option String
  introducedAt : Option String
  beta : Option Bool

/-- Documentation metadata. -/
structure Metadata where
  title : Option String
  platforms : Option (List Platform)
  roleHeading : Option String

/-- An index node (`IndexContentItem` / `SwiftInterfaceItem`). -/
inductive IndexContentItem where
  | mk
    (type title path : Option String)
    (beta : Option Bool)
    (children : Option (List IndexContentItem))

def IndexContentItem.title : IndexContentItem → Option String
  | .mk _ ti _ _ _ => ti

def IndexContentItem.children : IndexContentItem → Option (List IndexContentItem)
  | .mk _ _ _ _ ch => ch

/-- `interfaceLanguages` wrapper. -/
structure InterfaceLanguages where
  swift : Option (List IndexContentItem)

/-- The document root `AppleDocJSON`, restricted to the fields
`renderFromJSON` reads. -/
structure AppleDocJSON where
  metadata : Option Metadata
  abstract : Option (List TextFragment)
  primaryContentSections : Option (List PrimaryContentSection)
  topicSections : Option (List TopicSection)
  seeAlsoSections : Option (List SeeAlsoSection)
  variants : Option (List Variant)
  relationshipsSections : Option (List ContentItem)
  references : Option RefTable
  interfaceLanguages : Option InterfaceLanguages

/-! ## Reference Resolver (convertIdentifierToURL, extractTitleFromIdentifier) -/

/-- The sentinel emitted when block recursion exceeds depth 50. -/
def blockSentinel : String := "[Content too deeply nested]"

/-- The sentinel emitted when inline recursion exceeds depth 20. -/
def inlineSentinel : String := "[Inline content too deeply nested]"

/-- Model of `identifier.match(/\/documentation\/(.+)/)`: scan left to
right for an occurrence of `"/documentation/"` followed by at least one
non-newline character; the capture is the maximal run of non-newline
characters after it (JS `.` does not match newlines). -/
def docMatchData : List Char → Option (List Char)
  | [] => none
  | c :: rest =>
    if ("/documentation/".data).isPrefixOf (c :: rest) then
      let cap := ((c :: rest).drop 15).takeWhile (fun ch => ch != '\n')
      if cap.isEmpty then docMatchData rest else some cap
    else docMatchData rest

/-- The vendor prefix special-cased by the first rewrite branch. -/
def swiftUIPrefix : String := "doc://com.apple.SwiftUI/documentation/"

/-- `convertIdentifierToURL` from render.ts: reference-table URL when
truthy; else the SwiftUI prefix rewrite; else the `doc://com.apple.`
regex rewrite; else the identifier unchanged. -/
def convertIdentifierToURL (identifier : String) (references : Option RefTable) : String :=
  let refUrl := (refLookup references identifier).bind ContentItem.url
  if jsStrTruthy refUrl then refUrl.getD ""
  else if swiftUIPrefix.data.isPrefixOf identifier.data then
    ⟨"/documentation/".data ++ identifier.data.drop swiftUIPrefix.data.length⟩
  else if ("doc://com.apple.".data).isPrefixOf identifier.data then
    match docMatchData identifier.data with
    | some cap => ⟨"/documentation/".data ++ cap⟩
    | none => identifier
  else identifier

/-- Core of the lazy regex `^(.+?)(?:-\w+)?$`: if the last `-` of the
segment is followed by a nonempty all-word-character run and preceded by
at least one character, the capture drops that suffix; otherwise the
capture is the whole segment. -/
def stripDisambigCore (l : List Char) : List Char :=
  match l.reverse.span (fun c => c != '-') with
  | (sufRev, '-' :: preRev) =>
    if !preRev.isEmpty && !sufRev.isEmpty && sufRev.all isWordChar then preRev.reverse
    else l
  | _ => l

/-- `lastPart.match(/^(.+?)(?:-\w+)?$/)`: fails on the empty segment and
on segments containing a newline (JS `.` and `\w` match neither). -/
def titleCapture (l : List Char) : Option (List Char) :=
  if l.isEmpty || l.contains '\n' then none
  else some (stripDisambigCore l)

/-- The camelCase fallback: insert spaces at lower-to-upper boundaries,
collapse whitespace runs, trim. -/
def camelFallback (lastPart : String) : String :=
  ⟨trimData (collapseWSData false (camelSplitData lastPart.data))⟩

/-- `extractTitleFromIdentifier` from render.ts.  Note the fallthrough:
when the (stripped) capture has no parentheses, the camelCase conversion
applies to the unstripped last segment. -/
def extractTitleFromIdentifier (identifier : String) : String :=
  let parts := splitSlash identifier
  let lastPart := parts.getLastD ""
  match titleCapture lastPart.data with
  | some cap =>
    if cap.contains '(' && cap.contains ')' then ⟨cap⟩
    else camelFallback lastPart
  | none => camelFallback lastPart

/-! ## Inline Walker (renderInlineContent) -/

/-- JS template interpolation of the `code` field in codeVoice:
`undefined` prints as `"undefined"`, an array joins with commas. -/
def codeTmpl : Option CodeVal → String
  | some (.str s) => s
  | some (.arr l) => String.intercalate "," l
  | none => "undefined"

mutual
/-- The fold over the span list (`inlineContent.map(...).join("")`). -/
def renderInlineList : List ContentItem → Option RefTable → Nat → String
  | [], _, _ => ""
  | x :: xs, references, depth =>
    renderInlineItem x references depth ++ renderInlineList xs references depth

/-- One arm of the inline dispatch.  The depth guard of the recursive
`renderInlineContent` call is inlined at the two recursion sites (the
wrapper equation is proved below as renderInlineItem_emphasis /
renderInlineItem_strong). -/
def renderInlineItem : ContentItem → Option RefTable → Nat → String
  | .mk ty te ti idf _ _ _ _ cd _ _ ic _ _, references, depth =>
    match ty with
    | some "text" => te.getD ""
    | some "codeVoice" => "`" ++ codeTmpl cd ++ "`"
    | some "reference" =>
      let title := jsOrStr ti (jsOrStr te "")
      let url := if jsStrTruthy idf then convertIdentifierToURL (idf.getD "") references else ""
      "[" ++ title ++ "](" ++ url ++ ")"
    | some "emphasis" =>
      "*" ++ (match ic with
              | some c =>
                if depth + 1 > 20 then inlineSentinel
                else renderInlineList c references (depth + 1)
              | none => "") ++ "*"
    | some "strong" =>
      "**" ++ (match ic with
               | some c =>
                 if depth + 1 > 20 then inlineSentinel
                 else renderInlineList c references (depth + 1)
               | none => "") ++ "**"
    | _ => te.getD ""
end

/-- `renderInlineContent` from render.ts: the depth guard, then the fold. -/
def renderInlineContent (inlineContent : List ContentItem) (references : Option RefTable)
    (depth : Nat) : String :=
  if depth > 20 then inlineSentinel
  else renderInlineList inlineContent references depth

/-! ## Block Walker (renderContentArray) -/

/-- `mapAsideStyleToCallout` from render.ts. -/
def mapAsideStyleToCallout (style : String) : String :=
  match jsToLower style with
  | "warning" => "WARNING"
  | "important" => "IMPORTANT"
  | "caution" => "CAUTION"
  | "tip" => "TIP"
  | "deprecated" => "WARNING"
  | _ => "NOTE"

/-- `"#".repeat(n)`: throws RangeError for a negative count. -/
def repeatHash (n : Int) : Except String String :=
  if n < 0 then Except.error "RangeError: Invalid count value"
  else Except.ok ⟨List.replicate n.toNat '#'⟩

/-- The code string of a codeListing: array joins with newlines, a plain
string passes through (`String(item.code || "")`), absence gives `""`. -/
def codeListingStr : Option CodeVal → String
  | some (.arr l) => String.intercalate "\n" l
  | some (.str s) => s
  | none => ""

mutual
/-- The fold over a block-node list (the for-loop of renderContentArray). -/
def renderBlocks : List ContentItem → Option RefTable → Nat → Except String String
  | [], _, _ => Except.ok ""
  | x :: xs, references, depth =>
    match renderBlockItem x references depth with
    | Except.error e => Except.error e
    | Except.ok s =>
      match renderBlocks xs references depth with
      | Except.error e => Except.error e
      | Except.ok t => Except.ok (s ++ t)

/-- One arm of the block dispatch of renderContentArray.  The depth guard
of each recursive `renderContentArray` call is inlined at the call site
(wrapper equations are proved below). -/
def renderBlockItem : ContentItem → Option RefTable → Nat → Except String String
  | .mk ty te _ _ _ _ lv st cd lg co ic it _, references, depth =>
    match ty with
    | some "heading" =>
      match repeatHash (min (jsOrInt lv 2) 6) with
      | Except.error e => Except.error e
      | Except.ok hashes => Except.ok (hashes ++ " " ++ tmplStr te ++ "\n\n")
    | some "paragraph" =>
      match ic with
      | some inl => Except.ok (renderInlineContent inl references depth ++ "\n\n")
      | none => Except.ok ""
    | some "codeListing" =>
      Except.ok ("```" ++ jsOrStr lg "swift" ++ "\n" ++ codeListingStr cd ++ "\n```\n\n")
    | some "unorderedList" =>
      match it with
      | some items =>
        match renderUListItems items references depth with
        | Except.error e => Except.error e
        | Except.ok s => Except.ok (s ++ "\n")
      | none => Except.ok ""
    | some "orderedList" =>
      match it with
      | some items =>
        match renderOListItems items references depth 0 with
        | Except.error e => Except.error e
        | Except.ok s => Except.ok (s ++ "\n")
      | none => Except.ok ""
    | some "aside" =>
      let calloutType := mapAsideStyleToCallout (jsOrStr st "note")
      match co with
      | some c =>
        match (if depth + 1 > 50 then Except.ok blockSentinel
               else renderBlocks c references (depth + 1)) with
        | Except.error e => Except.error e
        | Except.ok asideContent =>
          Except.ok ("> [!" ++ calloutType ++ "]\n> " ++ replNL (jsTrim asideContent) ++ "\n\n")
      | none =>
        Except.ok ("> [!" ++ calloutType ++ "]\n> " ++ replNL (jsTrim "") ++ "\n\n")
    | _ => Except.ok ""

/-- `renderContentArray(listItem.content || [], references, depth + 1)`:
the recursive call made for one list item. -/
def renderItemContent : ContentItem → Option RefTable → Nat → Except String String
  | .mk _ _ _ _ _ _ _ _ _ _ co _ _ _, references, depth =>
    if depth + 1 > 50 then Except.ok blockSentinel
    else
      match co with
      | some cl => renderBlocks cl references (depth + 1)
      | none => Except.ok ""

/-- The unordered-list item loop: each item renders `- ` plus its content
with a trailing blank line collapsed. -/
def renderUListItems : List ContentItem → Option RefTable → Nat → Except String String
  | [], _, _ => Except.ok ""
  | li :: rest, references, depth =>
    match renderItemContent li references depth with
    | Except.error e => Except.error e
    | Except.ok t =>
      match renderUListItems rest references depth with
      | Except.error e => Except.error e
      | Except.ok restS => Except.ok ("- " ++ dropNN t ++ "\n" ++ restS)

/-- The ordered-list item loop (items numbered from `idx + 1`). -/
def renderOListItems : List ContentItem → Option RefTable → Nat → Nat → Except String String
  | [], _, _, _ => Except.ok ""
  | li :: rest, references, depth, idx =>
    match renderItemContent li references depth with
    | Except.error e => Except.error e
    | Except.ok t =>
      match renderOListItems rest references depth (idx + 1) with
      | Except.error e => Except.error e
      | Except.ok restS => Except.ok (toString (idx + 1) ++ ". " ++ dropNN t ++ "\n" ++ restS)
end

/-- `renderContentArray` from render.ts: the depth guard, then the fold. -/
def renderContentArray (content : List ContentItem) (references : Option RefTable)
    (depth : Nat) : Except String String :=
  if depth > 50 then Except.ok blockSentinel
  else renderBlocks content references depth

/-- `renderContent` from render.ts (depth defaults to 0). -/
def renderContent (content : List ContentItem) (references : Option RefTable) :
    Except String String :=
  renderContentArray content references 0

/-! ## Section Renderers -/

/-- `frags.map(a => a.text).join("")`: JS `join` coerces `undefined`
elements to `""`. -/
def joinTexts (l : List TextFragment) : String :=
  String.join (l.map (fun f => f.text.getD ""))

/-- The declaration loop of `renderDeclarations`. -/
def renderDeclList : List Declaration → String
  | [] => ""
  | d :: rest =>
    (match d.tokens with
     | some toks =>
       "```swift\n" ++ jsTrim (String.join (toks.map (fun t => jsOrStr t.text ""))) ++
         "\n```\n\n"
     | none => "") ++ renderDeclList rest

/-- `renderDeclarations` from render.ts.  (A `null` array entry, removed
by the source's `token != null` filter, behaves like a token without
text: both contribute `""`.) -/
def renderDeclarations (declarations : List Declaration) : String :=
  renderDeclList declarations

/-- The parameter loop of `renderParameters`. -/
def renderParamList : List Parameter → Option RefTable → Except String String
  | [], _ => Except.ok ""
  | p :: rest, references =>
    match (match p.content with
           | some c =>
             match renderContentArray c references 0 with
             | Except.error e => Except.error e
             | Except.ok t => Except.ok (t ++ "\n\n")
           | none => Except.ok "") with
    | Except.error e => Except.error e
    | Except.ok body =>
      match renderParamList rest references with
      | Except.error e => Except.error e
      | Except.ok r => Except.ok ("**" ++ p.name ++ "**\n\n" ++ body ++ r)

/-- `renderParameters` from render.ts. -/
def renderParameters (parameters : List Parameter) (references : Option RefTable) :
    Except String String :=
  if parameters.length = 0 then Except.ok ""
  else
    match renderParamList parameters references with
    | Except.error e => Except.error e
    | Except.ok s => Except.ok ("## Parameters\n\n" ++ s)

/-- The shared per-identifier line of renderRelationships / renderSeeAlso:
variant title, else reference title, else the heuristic; URL resolved by
`convertIdentifierToURL`. -/
def relLine (variants : Option (List Variant)) (references : Option RefTable)
    (id : String) : String :=
  let info := variants.bind (fun vs => vs.find? (fun v => v.identifier == some id))
  let reference := refLookup references id
  let title := jsOrStr (info.bind Variant.title)
    (jsOrStr (reference.bind ContentItem.title) (extractTitleFromIdentifier id))
  "- [" ++ title ++ "](" ++ convertIdentifierToURL id references ++ ")\n"

/-- The identifier loop of renderRelationships / renderSeeAlso. -/
def relItems : List String → Option (List Variant) → Option RefTable → String
  | [], _, _ => ""
  | id :: rest, variants, references =>
    relLine variants references id ++ relItems rest variants references

/-- The section loop of `renderRelationships`. -/
def renderRelationships : List ContentItem → Option (List Variant) → Option RefTable → String
  | [], _, _ => ""
  | rel :: rest, variants, references =>
    (if jsStrTruthy rel.title && (rel.identifiers).isSome then
      "## " ++ rel.title.getD "" ++ "\n\n" ++
        relItems (rel.identifiers.getD []) variants references ++ "\n"
     else "") ++ renderRelationships rest variants references

/-- The per-identifier line of `renderTopicSections`: when a variant or
reference entry exists, a nonempty abstract is appended after the link. -/
def topicLine (variants : Option (List Variant)) (references : Option RefTable)
    (id : String) : String :=
  let info := variants.bind (fun vs => vs.find? (fun v => v.identifier == some id))
  let reference := refLookup references id
  if info.isSome || reference.isSome then
    let title := jsOrStr (info.bind Variant.title)
      (jsOrStr (reference.bind ContentItem.title) (extractTitleFromIdentifier id))
    let url := convertIdentifierToURL id references
    let abstract :=
      match info.bind Variant.abstract with
      | some l => joinTexts l
      | none =>
        match reference.bind ContentItem.abstract with
        | some l => joinTexts l
        | none => ""
    "- [" ++ title ++ "](" ++ url ++ ")" ++
      (if abstract.isEmpty then "" else " " ++ abstract) ++ "\n"
  else
    "- [" ++ extractTitleFromIdentifier id ++ "](" ++
      convertIdentifierToURL id references ++ ")\n"

/-- The identifier loop of `renderTopicSections`. -/
def topicItems : List String → Option (List Variant) → Option RefTable → String
  | [], _, _ => ""
  | id :: rest, variants, references =>
    topicLine variants references id ++ topicItems rest variants references

/-- The section loop of `renderTopicSections`; the heading is emitted even
when the identifier list is absent. -/
def renderTopicSections : List TopicSection → Option (List Variant) → Option RefTable → String
  | [], _, _ => ""
  | topic :: rest, variants, references =>
    (if topic.title.isEmpty then ""
     else
       "## " ++ topic.title ++ "\n\n" ++
         (match topic.identifiers with
          | some ids => topicItems ids variants references ++ "\n"
          | none => "")) ++ renderTopicSections rest variants references

/-- The section loop of `renderSeeAlso`. -/
def renderSeeAlso : List SeeAlsoSection → Option (List Variant) → Option RefTable → String
  | [], _, _ => ""
  | section_ :: rest, variants, references =>
    (match section_.identifiers with
     | some ids =>
       if section_.title.isEmpty then ""
       else "## " ++ section_.title ++ "\n\n" ++ relItems ids variants references ++ "\n"
     | none => "") ++ renderSeeAlso rest variants references

/-- The loop of `renderIndexContentWithIndent`; `isFirst` tracks `i > 0`
(spacing before group markers). -/
def renderIndexItems : List IndexContentItem → Nat → Bool → String
  | [], _, _ => ""
  | child :: rest, headingLevel, isFirst =>
    (match child with
     | .mk ty ti pa be ch =>
       if ty == some "groupMarker" then
         (if isFirst then "" else "\n") ++
           (⟨List.replicate (min headingLevel 6) '#'⟩ : String) ++ " " ++ tmplStr ti ++ "\n\n"
       else if jsStrTruthy pa && jsStrTruthy ti then
         "- [" ++ ti.getD "" ++ "](" ++ pa.getD "" ++ ")" ++
           (if be == some true then " **Beta**" else "") ++ "\n" ++
           (match ch with
            | some cs => "\n" ++ renderIndexItems cs (headingLevel + 1) true
            | none => "")
       else "") ++ renderIndexItems rest headingLevel false

/-- `renderIndexContent` from render.ts. -/
def renderIndexContent (children : List IndexContentItem) : String :=
  renderIndexItems children 2 true

/-! ## Front matter, breadcrumbs, orchestrator -/

/-- Minimal model of the WHATWG `URL` constructor as used by the code
(only the pathname is read): accepts `scheme://rest` with a nonempty
alphabetic scheme and nonempty rest; the pathname is the part of `rest`
from the first slash (or `/` if none).  Query/fragment splitting and path
normalisation are not modelled; the code only splits the pathname on
slashes. -/
def parseURL (s : String) : Option String :=
  match findSchemeSplit s.data with
  | some (scheme, rest) =>
    if scheme.isEmpty || rest.isEmpty || !scheme.all Char.isAlpha then none
    else
      let afterHost := rest.dropWhile (fun c => c != '/')
      some (if afterHost.isEmpty then "/" else ⟨afterHost⟩)
  | none => none

/-- The breadcrumb loop: one ` › [seg](/path)` link per intermediate
segment (the final segment is excluded). -/
def breadcrumbSegs : List String → List String → String
  | _, [] => ""
  | acc, p :: rest =>
    if rest.isEmpty then ""
    else
      " › [" ++ p ++ "](/" ++ String.intercalate "/" (acc ++ [p]) ++ ")" ++
        breadcrumbSegs (acc ++ [p]) rest

/-- `generateBreadcrumbs` from render.ts; `new URL(sourceUrl)` throws on
an unparsable URL. -/
def generateBreadcrumbs (sourceUrl : String) : Except String String :=
  match parseURL sourceUrl with
  | none => Except.error "TypeError: Invalid URL"
  | some pathname =>
    let pathParts := (splitSlash pathname).filter (fun p => !p.isEmpty)
    if pathParts.length < 3 then Except.ok ""
    else
      let framework := pathParts.getD 1 ""
      Except.ok ("**Navigation:** [" ++ capitalizeFirst framework ++ "](/documentation/" ++
        framework ++ ")" ++ breadcrumbSegs (pathParts.take 2) (pathParts.drop 2) ++ "\n\n")

/-- One platform's availability text. -/
def platformStr (p : Platform) : String :=
  tmplStr p.name ++ " " ++ tmplStr p.introducedAt ++ "+" ++
    (if p.beta == some true then " Beta" else "")

/-- `generateFrontMatterFromJSON` from render.ts; `now` is the string
`new Date().toISOString()` would produce. -/
def generateFrontMatterFromJSON (jsonData : AppleDocJSON) (sourceUrl : String)
    (now : String) : String :=
  let mTitle := jsonData.metadata.bind Metadata.title
  let titleVal : Option String :=
    if jsStrTruthy mTitle then
      some (jsTrim (removeFirst "| Apple Developer Documentation" (mTitle.getD "")))
    else
      let iTitle := ((jsonData.interfaceLanguages.bind InterfaceLanguages.swift).bind
        List.head?).bind IndexContentItem.title
      if jsStrTruthy iTitle then some (iTitle.getD "") else none
  let descVal : Option String :=
    match jsonData.abstract with
    | some frags =>
      let d := jsTrim (joinTexts (frags.filter (fun f => f.type == some "text")))
      if d.isEmpty then none else some d
    | none => none
  let lines :=
    (match titleVal with | some t => ["title: " ++ t] | none => []) ++
    (match descVal with | some d => ["description: " ++ d] | none => []) ++
    ["source: " ++ sourceUrl, "timestamp: " ++ now]
  "---\n" ++ String.intercalate "\n" lines ++ "\n---\n\n"

/-- The primary-content-section block of renderFromJSON: declarations,
then parameters, then each content section. -/
def renderContentSections : List PrimaryContentSection → Option RefTable → Except String String
  | [], _ => Except.ok ""
  | s :: rest, references =>
    match (match s.content with
           | some c => renderContent c references
           | none => Except.ok "") with
    | Except.error e => Except.error e
    | Except.ok t =>
      match renderContentSections rest references with
      | Except.error e => Except.error e
      | Except.ok r => Except.ok (t ++ r)

/-- The `primaryContentSections` block of renderFromJSON. -/
def renderPrimary (pcs : Option (List PrimaryContentSection)) (references : Option RefTable) :
    Except String String :=
  match pcs with
  | none => Except.ok ""
  | some sections =>
    let declPart :=
      match (sections.find? (fun s => s.kind == "declarations")).bind
        PrimaryContentSection.declarations with
      | some ds => renderDeclarations ds
      | none => ""
    match (match (sections.find? (fun s => s.kind == "parameters")).bind
             PrimaryContentSection.parameters with
           | some ps => renderParameters ps references
           | none => Except.ok "") with
    | Except.error e => Except.error e
    | Except.ok paramPart =>
      match renderContentSections (sections.filter (fun s => s.kind == "content")) references with
      | Except.error e => Except.error e
      | Except.ok contentPart => Except.ok (declPart ++ paramPart ++ contentPart)

/-- The index block of renderFromJSON.  `swift` being present but empty
makes `swift[0]` undefined, and reading `.children` of it throws. -/
def renderIndexSection (jsonData : AppleDocJSON) : Except String String :=
  match jsonData.interfaceLanguages with
  | none => Except.ok ""
  | some il =>
    match il.swift with
    | none => Except.ok ""
    | some [] =>
      Except.error "TypeError: Cannot read properties of undefined (reading 'children')"
    | some (c :: _) =>
      match c.children with
      | some ch => Except.ok (renderIndexContent ch)
      | none => Except.ok ""

/-- The fixed footer appended after trimming. -/
def footerStr : String :=
  "\n\n---\n\n*Extracted by [sosumi.ai](https://sosumi.ai) - Making Apple docs AI-readable.*\n" ++
    "*This is unofficial content. All documentation belongs to Apple Inc.*\n"

/-- The body accumulated by renderFromJSON after the front matter, given
the three fallible parts already computed (the JS code builds the same
string by `+=` in this order). -/
def renderDocBody (jsonData : AppleDocJSON) (breadcrumbs pcs idx : String) : String :=
  breadcrumbs ++
    (match jsonData.metadata.bind Metadata.roleHeading with
     | some rh => if rh.isEmpty then "" else "**" ++ rh ++ "**\n\n"
     | none => "") ++
    (if (jsOrStr (jsonData.metadata.bind Metadata.title) "").isEmpty then ""
     else "# " ++ jsOrStr (jsonData.metadata.bind Metadata.title) "" ++ "\n\n") ++
    (match jsonData.metadata.bind Metadata.platforms with
     | some ps =>
       if ps.length > 0 then
         "**Available on:** " ++ String.intercalate ", " (ps.map platformStr) ++ "\n\n"
       else ""
     | none => "") ++
    (match jsonData.abstract with
     | some frags =>
       let t := joinTexts (frags.filter (fun f => f.type == some "text"))
       if (jsTrim t).isEmpty then "" else "> " ++ t ++ "\n\n"
     | none => "") ++
    pcs ++
    (match jsonData.relationshipsSections with
     | some rels => renderRelationships rels jsonData.variants jsonData.references
     | none => "") ++
    (match jsonData.topicSections with
     | some ts => renderTopicSections ts jsonData.variants jsonData.references
     | none => "") ++
    idx ++
    (match jsonData.seeAlsoSections with
     | some sa => renderSeeAlso sa jsonData.variants jsonData.references
     | none => "")

/-- `renderFromJSON` from render.ts, with the wall-clock reading passed
explicitly as `now`.  The three throw sites fire in the same order as in
the JS code (breadcrumbs, then primary sections, then the index). -/
def renderFromJSON (jsonData : AppleDocJSON) (sourceUrl : String) (now : String) :
    Except String String :=
  match generateBreadcrumbs sourceUrl with
  | Except.error e => Except.error e
  | Except.ok breadcrumbs =>
    match renderPrimary jsonData.primaryContentSections jsonData.references with
    | Except.error e => Except.error e
    | Except.ok pcs =>
      match renderIndexSection jsonData with
      | Except.error e => Except.error e
      | Except.ok idx =>
        Except.ok (jsTrim (generateFrontMatterFromJSON jsonData sourceUrl now ++
          renderDocBody jsonData breadcrumbs pcs idx) ++ footerStr)

/-! ## Nesting measures

`listNest` measures how many list/aside wrappers the block walker
descends through (the depth parameter grows by exactly one per wrapper);
`inlineListNest` does the same for emphasis/strong in the inline walker. -/

mutual
/-- Block-nesting contributed by one node: a list node with at least one
item descends into each item's content, an aside with content descends
into it; everything else descends no further. -/
def itemNest : ContentItem → Nat
  | .mk ty _ _ _ _ _ _ _ _ _ co _ it _ =>
    if ty == some "unorderedList" || ty == some "orderedList" then
      match it with
      | some [] => 0
      | some (li :: rest) => 1 + listItemsNest (li :: rest)
      | none => 0
    else if ty == some "aside" then
      match co with
      | some c => 1 + listNest c
      | none => 0
    else 0

/-- Block-nesting below one list item (`listItem.content || []`). -/
def contNest : ContentItem → Nat
  | .mk _ _ _ _ _ _ _ _ _ _ co _ _ _ =>
    match co with
    | some cl => listNest cl
    | none => 0

/-- Maximum `contNest` over the items of a list node. -/
def listItemsNest : List ContentItem → Nat
  | [] => 0
  | li :: rest => max (contNest li) (listItemsNest rest)

/-- Maximum `itemNest` over a block-node list. -/
def listNest : List ContentItem → Nat
  | [] => 0
  | x :: xs => max (itemNest x) (listNest xs)
end

mutual
/-- Inline nesting contributed by one span: emphasis/strong with a span
list descends into it. -/
def inlineItemNest : ContentItem → Nat
  | .mk ty _ _ _ _ _ _ _ _ _ _ ic _ _ =>
    if ty == some "emphasis" || ty == some "strong" then
      match ic with
      | some c => 1 + inlineListNest c
      | none => 0
    else 0

/-- Maximum `inlineItemNest` over a span list. -/
def inlineListNest : List ContentItem → Nat
  | [] => 0
  | x :: xs => max (inlineItemNest x) (inlineListNest xs)
end

/-! ## Concrete builders and inputs used by witnesses -/

/-- A node with every field absent. -/
def emptyItem : ContentItem :=
  ContentItem.mk none none none none none none none none none none none none none none

/-- A text span. -/
def mkText (s : String) : ContentItem :=
  ContentItem.mk (some "text") (some s) none none none none none none none none
    none none none none

/-- A paragraph with the given spans. -/
def mkPara (ic : List ContentItem) : ContentItem :=
  ContentItem.mk (some "paragraph") none none none none none none none none none
    none (some ic) none none

/-- An emphasis span with children. -/
def mkEmph (ic : List ContentItem) : ContentItem :=
  ContentItem.mk (some "emphasis") none none none none none none none none none
    none (some ic) none none

/-- A reference span with only an identifier. -/
def mkRefSpan (id : String) : ContentItem :=
  ContentItem.mk (some "reference") none none (some id) none none none none none none
    none none none none

/-- A heading node with an explicit level. -/
def mkHeading (lv : Int) (s : String) : ContentItem :=
  ContentItem.mk (some "heading") (some s) none none none none (some lv) none none none
    none none none none

/-- A list item whose content is the given block list. -/
def mkListItem (c : List ContentItem) : ContentItem :=
  ContentItem.mk none none none none none none none none none none
    (some c) none none none

/-- An unordered list with the given items. -/
def mkUList (items : List ContentItem) : ContentItem :=
  ContentItem.mk (some "unorderedList") none none none none none none none none none
    none none (some items) none

/-- `n` unordered-list wrappers around one leaf block. -/
def nestUList (leaf : ContentItem) : Nat → ContentItem
  | 0 => leaf
  | n + 1 => mkUList [mkListItem [nestUList leaf n]]

/-- `n` emphasis wrappers around one text span. -/
def nestEmph (leaf : ContentItem) : Nat → ContentItem
  | 0 => leaf
  | n + 1 => mkEmph [nestEmph leaf n]

deriving instance DecidableEq for Except

/-- The result string of an `Except` that is known to be `ok`. -/
def getOk : Except String String → String
  | Except.ok s => s
  | Except.error _ => ""

/-- The document root with every field absent. -/
def emptyDoc : AppleDocJSON :=
  ⟨none, none, none, none, none, none, none, none, none⟩

/-- A document whose `interfaceLanguages.swift` is present but empty:
`swift[0]` is undefined and reading `.children` throws. -/
def emptySwiftDoc : AppleDocJSON :=
  ⟨none, none, none, none, none, none, none, none, some ⟨some []⟩⟩

/-- A document containing a single heading block with level `-1`:
`"#".repeat(-1)` throws RangeError. -/
def negHeadingDoc : AppleDocJSON :=
  ⟨none, none, some [⟨"content", some [mkHeading (-1) "t"], none, none⟩],
    none, none, none, none, none, none⟩

/-! ## Spec-side definitions for the amended title heuristic

`extractTitleAmendedSpec` follows the amended wording: take the final
path segment; when the segment (minus a trailing `-\w+` disambiguator)
contains both parentheses, return the stripped signature verbatim;
otherwise apply the camelCase spacing to the unstripped segment. -/

/-- The signature case of the amended heuristic: the regex capture when it
contains both parentheses. -/
def sigOf (lastPart : String) : Option String :=
  match titleCapture lastPart.data with
  | some cap =>
    if cap.contains '(' && cap.contains ')' then some ⟨cap⟩ else none
  | none => none

/-- Modelled from the amended claim wording for C7 (refinement target). -/
def extractTitleAmendedSpec (identifier : String) : String :=
  let lastPart := (splitSlash identifier).getLastD ""
  match sigOf lastPart with
  | some sig => sig
  | none => camelFallback lastPart

/-- Concatenation of `f` over a list, used to state the one-item-per-
identifier shape of the section renderers. -/
def joinMapStr (f : α → String) : List α → String
  | [] => ""
  | a :: as => f a ++ joinMapStr f as

/-! # Theorems

## General string and infix lemmas -/

theorem infix_cons_elim {p w : List Char} {c : Char} (hc : c ∉ p) (h : p <:+: c :: w) :
    p <:+: w := by
  obtain ⟨s, t, hst⟩ := h
  cases s with
  | nil =>
    cases p with
    | nil => exact List.nil_infix
    | cons ph pt =>
      simp only [List.nil_append, List.cons_append, List.cons.injEq] at hst
      exact absurd (hst.1 ▸ List.mem_cons_self ph pt) hc
  | cons sh st =>
    simp only [List.cons_append, List.cons.injEq] at hst
    exact ⟨st, t, hst.2⟩

theorem infix_concat_elim {p r : List Char} {c : Char} (hc : c ∉ p)
    (h : p <:+: r ++ [c]) : p <:+: r := by
  have h1 : p.reverse <:+: c :: r.reverse := by
    have h0 := List.reverse_infix.mpr h
    simpa using h0
  have h2 := infix_cons_elim (by simpa using hc) h1
  have h3 := List.reverse_infix.mp (by simpa using h2 : p.reverse <:+: r.reverse.reverse.reverse)
  simpa using h3

theorem infix_dropNNData {p l : List Char} (hnl : '\n' ∉ p) (h : p <:+: l) :
    p <:+: dropNNData l := by
  unfold dropNNData
  split
  · next rest heq =>
    have hl : l = rest.reverse ++ ['\n', '\n'] := by
      have h0 := congrArg List.reverse heq
      simpa using h0
    have h1 : p <:+: (rest.reverse ++ ['\n']) ++ ['\n'] := by
      rw [hl] at h
      simpa [List.append_assoc] using h
    exact infix_concat_elim hnl (infix_concat_elim hnl h1)
  · exact h

theorem dropWhile_append_cons (w t : List Char) (h : Char) (hh : isWS h = false) :
    List.dropWhile isWS (w ++ h :: t) = List.dropWhile isWS w ++ h :: t := by
  induction w with
  | nil => simp [List.dropWhile_cons, hh]
  | cons a as ih =>
    by_cases ha : isWS a
    · simp [List.dropWhile_cons, ha, ih]
    · simp [List.dropWhile_cons, ha]

theorem infix_dropWhileWS {p l : List Char} {c : Char} (hc : p.head? = some c)
    (hW : isWS c = false) (h : p <:+: l) : p <:+: l.dropWhile isWS := by
  obtain ⟨s, t, hst⟩ := h
  cases p with
  | nil => exact List.nil_infix
  | cons ph pt =>
    have hcp : ph = c := by simpa using hc
    subst hcp
    have hform : l = s ++ ph :: (pt ++ t) := by
      rw [← hst]; simp
    rw [hform, dropWhile_append_cons s (pt ++ t) ph hW]
    exact ⟨List.dropWhile isWS s, t, by simp⟩

theorem infix_trimData {p l : List Char} {c d : Char} (hc : p.head? = some c)
    (hWc : isWS c = false) (hd : p.getLast? = some d) (hWd : isWS d = false)
    (h : p <:+: l) : p <:+: trimData l := by
  have step1 : p <:+: l.dropWhile isWS := infix_dropWhileWS hc hWc h
  have step2 : p.reverse <:+: (l.dropWhile isWS).reverse := List.reverse_infix.mpr step1
  have hrc : p.reverse.head? = some d := by rw [List.head?_reverse]; exact hd
  have step3 : p.reverse <:+: ((l.dropWhile isWS).reverse).dropWhile isWS :=
    infix_dropWhileWS hrc hWd step2
  have step4 := List.reverse_infix.mpr step3
  simpa [trimData] using step4

theorem prefix_dropWhileWS_of_head {l : List Char} {c : Char} (hc : l.head? = some c)
    (hW : isWS c = false) : l.dropWhile isWS = l := by
  cases l with
  | nil => rfl
  | cons a as =>
    have : a = c := by simpa using hc
    subst this
    simp [List.dropWhile_cons, hW]

theorem prefix_trimData {p l : List Char} {c d : Char} (hc : p.head? = some c)
    (hWc : isWS c = false) (hd : p.getLast? = some d) (hWd : isWS d = false)
    (h : p <+: l) : p <+: trimData l := by
  obtain ⟨r, hr⟩ := h
  have hlc : l.head? = some c := by
    cases p with
    | nil => cases hc
    | cons ph pt => rw [← hr]; simpa using hc
  have h1 : l.dropWhile isWS = l := prefix_dropWhileWS_of_head hlc hWc
  have hrev : p.reverse = d :: p.reverse.tail := by
    have hh : p.reverse.head? = some d := by rw [List.head?_reverse]; exact hd
    cases hp : p.reverse with
    | nil => rw [hp] at hh; cases hh
    | cons x xs =>
      rw [hp] at hh
      simp only [List.head?_cons, Option.some.injEq] at hh
      simp [hh]
  have hl2 : l.reverse = r.reverse ++ p.reverse := by rw [← hr]; simp
  have h2 : l.reverse.dropWhile isWS = r.reverse.dropWhile isWS ++ p.reverse := by
    rw [hl2, hrev, dropWhile_append_cons _ _ _ hWd, ← hrev]
  refine ⟨(r.reverse.dropWhile isWS).reverse, ?_⟩
  show p ++ (r.reverse.dropWhile isWS).reverse = trimData l
  unfold trimData
  rw [h1, h2]
  simp

theorem replNLData_append (a b : List Char) :
    replNLData (a ++ b) = replNLData a ++ replNLData b := by
  induction a with
  | nil => rfl
  | cons c rest ih =>
    by_cases hc : c = '\n'
    · simp [replNLData, hc, ih]
    · simp [replNLData, hc, ih]

theorem replNLData_id {p : List Char} (h : '\n' ∉ p) : replNLData p = p := by
  induction p with
  | nil => rfl
  | cons c rest ih =>
    have hc : c ≠ '\n' := fun he => h (he ▸ List.mem_cons_self c rest)
    have hr : '\n' ∉ rest := fun hm => h (List.mem_cons_of_mem c hm)
    simp [replNLData, hc, ih hr]

theorem infix_replNLData {p l : List Char} (h : '\n' ∉ p) (hi : p <:+: l) :
    p <:+: replNLData l := by
  obtain ⟨s, t, hst⟩ := hi
  refine ⟨replNLData s, replNLData t, ?_⟩
  rw [← hst, replNLData_append, replNLData_append, replNLData_id h]

/-! ## Append and membership lemmas for the walkers -/

theorem renderInlineList_append (xs ys : List ContentItem) (references : Option RefTable)
    (d : Nat) :
    renderInlineList (xs ++ ys) references d =
      renderInlineList xs references d ++ renderInlineList ys references d := by
  induction xs with
  | nil => simp [renderInlineList]
  | cons x rest ih => simp [renderInlineList, ih, String.append_assoc]

theorem renderInlineList_mem {l : List ContentItem} {x : ContentItem}
    (references : Option RefTable) (d : Nat) (hx : x ∈ l) :
    (renderInlineItem x references d).data <:+: (renderInlineList l references d).data := by
  induction l with
  | nil => cases hx
  | cons y ys ih =>
    rcases List.mem_cons.mp hx with h | h
    · subst h
      rw [renderInlineList, String.data_append]
      exact (List.prefix_append _ _).isInfix
    · have h2 := ih h
      rw [renderInlineList, String.data_append]
      exact h2.trans (List.suffix_append _ _).isInfix

theorem renderBlocks_append (xs ys : List ContentItem) (references : Option RefTable)
    (d : Nat) :
    renderBlocks (xs ++ ys) references d =
      (match renderBlocks xs references d, renderBlocks ys references d with
       | Except.ok a, Except.ok b => Except.ok (a ++ b)
       | Except.error e, _ => Except.error e
       | Except.ok _, Except.error e => Except.error e) := by
  induction xs with
  | nil =>
    simp only [List.nil_append, renderBlocks]
    cases renderBlocks ys references d <;> simp
  | cons x rest ih =>
    simp only [List.cons_append, renderBlocks, List.append_eq]
    rw [ih]
    cases renderBlockItem x references d <;>
      cases hr : renderBlocks rest references d <;>
      cases hy : renderBlocks ys references d <;>
      simp [hr, hy, String.append_assoc]

theorem renderBlocks_mem {l : List ContentItem} {references : Option RefTable} {d : Nat}
    {s : String} (hok : renderBlocks l references d = Except.ok s) {x : ContentItem}
    (hx : x ∈ l) :
    ∃ sx, renderBlockItem x references d = Except.ok sx ∧ sx.data <:+: s.data := by
  induction l generalizing s with
  | nil => cases hx
  | cons y ys ih =>
    rw [renderBlocks] at hok
    rcases hy : renderBlockItem y references d with e | sy <;> rw [hy] at hok
    · cases hok
    rcases hys : renderBlocks ys references d with e | sys <;> rw [hys] at hok
    · cases hok
    injection hok with hok
    rcases List.mem_cons.mp hx with h | h
    · subst h
      refine ⟨sy, hy, ?_⟩
      rw [← hok, String.data_append]
      exact (List.prefix_append _ _).isInfix
    · obtain ⟨sx, h1, h2⟩ := ih hys h
      refine ⟨sx, h1, ?_⟩
      rw [← hok, String.data_append]
      exact h2.trans (List.suffix_append _ _).isInfix

theorem renderUListItems_mem {l : List ContentItem} {references : Option RefTable} {d : Nat}
    {s : String} (hok : renderUListItems l references d = Except.ok s) {li : ContentItem}
    (hli : li ∈ l) :
    ∃ t, renderItemContent li references d = Except.ok t ∧ (dropNN t).data <:+: s.data := by
  induction l generalizing s with
  | nil => cases hli
  | cons y ys ih =>
    rw [renderUListItems] at hok
    rcases hy : renderItemContent y references d with e | ty <;> rw [hy] at hok
    · cases hok
    rcases hys : renderUListItems ys references d with e | sys <;> rw [hys] at hok
    · cases hok
    injection hok with hok
    rcases List.mem_cons.mp hli with h | h
    · subst h
      refine ⟨ty, hy, ?_⟩
      rw [← hok]
      exact ⟨"- ".data, ("\n" ++ sys).data, by simp [String.data_append, List.append_assoc]⟩
    · obtain ⟨t, h1, h2⟩ := ih hys h
      refine ⟨t, h1, ?_⟩
      rw [← hok]
      have : sys.data <:+: ("- " ++ dropNN ty ++ "\n" ++ sys).data := by
        rw [String.data_append]
        exact (List.suffix_append _ _).isInfix
      exact h2.trans this

theorem renderOListItems_mem {l : List ContentItem} {references : Option RefTable} {d : Nat}
    {s : String} {idx : Nat}
    (hok : renderOListItems l references d idx = Except.ok s) {li : ContentItem}
    (hli : li ∈ l) :
    ∃ t, renderItemContent li references d = Except.ok t ∧ (dropNN t).data <:+: s.data := by
  induction l generalizing s idx with
  | nil => cases hli
  | cons y ys ih =>
    rw [renderOListItems] at hok
    rcases hy : renderItemContent y references d with e | ty <;> rw [hy] at hok
    · cases hok
    rcases hys : renderOListItems ys references d (idx + 1) with e | sys <;> rw [hys] at hok
    · cases hok
    injection hok with hok
    rcases List.mem_cons.mp hli with h | h
    · subst h
      refine ⟨ty, hy, ?_⟩
      rw [← hok]
      exact ⟨(toString (idx + 1) ++ ". ").data, ("\n" ++ sys).data,
        by simp [String.data_append, List.append_assoc]⟩
    · obtain ⟨t, h1, h2⟩ := ih hys h
      refine ⟨t, h1, ?_⟩
      rw [← hok]
      have : sys.data <:+: (toString (idx + 1) ++ ". " ++ dropNN ty ++ "\n" ++ sys).data := by
        rw [String.data_append]
        exact (List.suffix_append _ _).isInfix
      exact h2.trans this

/-! ## Maximum-attained lemmas for the nesting measures -/

theorem listNest_exists {l : List ContentItem} (h : 0 < listNest l) :
    ∃ x ∈ l, itemNest x = listNest l := by
  induction l with
  | nil => simp [listNest] at h
  | cons x xs ih =>
    rcases max_choice (itemNest x) (listNest xs) with hm | hm
    · exact ⟨x, List.mem_cons_self x xs, by rw [listNest, hm]⟩
    · have hpos : 0 < listNest xs := by
        rw [listNest, hm] at h; exact h
      obtain ⟨y, hy, he⟩ := ih hpos
      exact ⟨y, List.mem_cons_of_mem x hy, by rw [listNest, hm, he]⟩

theorem listItemsNest_exists {l : List ContentItem} (h : 0 < listItemsNest l) :
    ∃ li ∈ l, contNest li = listItemsNest l := by
  induction l with
  | nil => simp [listItemsNest] at h
  | cons x xs ih =>
    rcases max_choice (contNest x) (listItemsNest xs) with hm | hm
    · exact ⟨x, List.mem_cons_self x xs, by rw [listItemsNest, hm]⟩
    · have hpos : 0 < listItemsNest xs := by
        rw [listItemsNest, hm] at h; exact h
      obtain ⟨y, hy, he⟩ := ih hpos
      exact ⟨y, List.mem_cons_of_mem x hy, by rw [listItemsNest, hm, he]⟩

theorem inlineListNest_exists {l : List ContentItem} (h : 0 < inlineListNest l) :
    ∃ x ∈ l, inlineItemNest x = inlineListNest l := by
  induction l with
  | nil => simp [inlineListNest] at h
  | cons x xs ih =>
    rcases max_choice (inlineItemNest x) (inlineListNest xs) with hm | hm
    · exact ⟨x, List.mem_cons_self x xs, by rw [inlineListNest, hm]⟩
    · have hpos : 0 < inlineListNest xs := by
        rw [inlineListNest, hm] at h; exact h
      obtain ⟨y, hy, he⟩ := ih hpos
      exact ⟨y, List.mem_cons_of_mem x hy, by rw [inlineListNest, hm, he]⟩

/-! ## Branch equations for the dispatch functions -/

theorem renderInlineItem_emphasis_eq (te ti idf : Option String)
    (ids : Option (List String)) (url : Option String) (lv : Option Int)
    (st : Option String) (cd : Option CodeVal) (lg : Option String)
    (co ic it : Option (List ContentItem)) (ab : Option (List TextFragment))
    (references : Option RefTable) (d : Nat) :
    renderInlineItem (.mk (some "emphasis") te ti idf ids url lv st cd lg co ic it ab)
        references d =
      "*" ++ (match ic with
              | some c =>
                if d + 1 > 20 then inlineSentinel else renderInlineList c references (d + 1)
              | none => "") ++ "*" := by
  rw [renderInlineItem.eq_def]; rfl

theorem renderInlineItem_strong_eq (te ti idf : Option String)
    (ids : Option (List String)) (url : Option String) (lv : Option Int)
    (st : Option String) (cd : Option CodeVal) (lg : Option String)
    (co ic it : Option (List ContentItem)) (ab : Option (List TextFragment))
    (references : Option RefTable) (d : Nat) :
    renderInlineItem (.mk (some "strong") te ti idf ids url lv st cd lg co ic it ab)
        references d =
      "**" ++ (match ic with
               | some c =>
                 if d + 1 > 20 then inlineSentinel else renderInlineList c references (d + 1)
               | none => "") ++ "**" := by
  rw [renderInlineItem.eq_def]; rfl

theorem renderBlockItem_paragraph_eq (te ti idf : Option String)
    (ids : Option (List String)) (url : Option String) (lv : Option Int)
    (st : Option String) (cd : Option CodeVal) (lg : Option String)
    (co ic it : Option (List ContentItem)) (ab : Option (List TextFragment))
    (references : Option RefTable) (d : Nat) :
    renderBlockItem (.mk (some "paragraph") te ti idf ids url lv st cd lg co ic it ab)
        references d =
      match ic with
      | some inl => Except.ok (renderInlineContent inl references d ++ "\n\n")
      | none => Except.ok "" := rfl

theorem renderBlockItem_ulist_eq (te ti idf : Option String)
    (ids : Option (List String)) (url : Option String) (lv : Option Int)
    (st : Option String) (cd : Option CodeVal) (lg : Option String)
    (co ic : Option (List ContentItem)) (items : List ContentItem)
    (ab : Option (List TextFragment)) (references : Option RefTable) (d : Nat) :
    renderBlockItem
        (.mk (some "unorderedList") te ti idf ids url lv st cd lg co ic (some items) ab)
        references d =
      match renderUListItems items references d with
      | Except.error e => Except.error e
      | Except.ok s => Except.ok (s ++ "\n") := by
  rw [renderBlockItem.eq_def]; rfl

theorem renderBlockItem_olist_eq (te ti idf : Option String)
    (ids : Option (List String)) (url : Option String) (lv : Option Int)
    (st : Option String) (cd : Option CodeVal) (lg : Option String)
    (co ic : Option (List ContentItem)) (items : List ContentItem)
    (ab : Option (List TextFragment)) (references : Option RefTable) (d : Nat) :
    renderBlockItem
        (.mk (some "orderedList") te ti idf ids url lv st cd lg co ic (some items) ab)
        references d =
      match renderOListItems items references d 0 with
      | Except.error e => Except.error e
      | Except.ok s => Except.ok (s ++ "\n") := by
  rw [renderBlockItem.eq_def]; rfl

theorem renderBlockItem_aside_eq (te ti idf : Option String)
    (ids : Option (List String)) (url : Option String) (lv : Option Int)
    (st : Option String) (cd : Option CodeVal) (lg : Option String)
    (c : List ContentItem) (ic it : Option (List ContentItem))
    (ab : Option (List TextFragment)) (references : Option RefTable) (d : Nat) :
    renderBlockItem (.mk (some "aside") te ti idf ids url lv st cd lg (some c) ic it ab)
        references d =
      match (if d + 1 > 50 then Except.ok blockSentinel
             else renderBlocks c references (d + 1)) with
      | Except.error e => Except.error e
      | Except.ok asideContent =>
        Except.ok ("> [!" ++ mapAsideStyleToCallout (jsOrStr st "note") ++ "]\n> " ++
          replNL (jsTrim asideContent) ++ "\n\n") := by
  rw [renderBlockItem.eq_def]; rfl

theorem renderItemContent_eq (te ti idf : Option String)
    (ids : Option (List String)) (url : Option String) (lv : Option Int)
    (st : Option String) (cd : Option CodeVal) (lg : Option String)
    (co ic it : Option (List ContentItem)) (ab : Option (List TextFragment))
    (references : Option RefTable) (d : Nat) :
    renderItemContent (.mk ty te ti idf ids url lv st cd lg co ic it ab) references d =
      (if d + 1 > 50 then Except.ok blockSentinel
       else match co with
            | some cl => renderBlocks cl references (d + 1)
            | none => Except.ok "") := by
  rw [renderItemContent.eq_def]

/-! ## The inline depth guard produces its sentinel -/

theorem inlineDeepAux :
    ∀ (n : Nat) (l : List ContentItem) (references : Option RefTable) (d : Nat),
      inlineListNest l ≤ n → 20 < d + inlineListNest l →
      inlineSentinel.data <:+: (renderInlineContent l references d).data := by
  intro n
  induction n with
  | zero =>
    intro l references d hle hgt
    have hd : d > 20 := by omega
    rw [renderInlineContent, if_pos hd]
  | succ n ih =>
    intro l references d hle hgt
    by_cases hd : d > 20
    · rw [renderInlineContent, if_pos hd]
    · rw [renderInlineContent, if_neg hd]
      have hpos : 0 < inlineListNest l := by omega
      obtain ⟨x, hx, hxe⟩ := inlineListNest_exists hpos
      have hmem := renderInlineList_mem references d hx
      refine List.IsInfix.trans ?_ hmem
      obtain ⟨ty, te, ti, idf, ids, url, lv, st, cd, lg, co, ic, it, ab⟩ := x
      simp only [inlineItemNest.eq_def] at hxe
      by_cases hes : (ty == some "emphasis" || ty == some "strong") = true
      · rw [if_pos hes] at hxe
        cases ic with
        | none => simp at hxe; omega
        | some c =>
          have hce : 1 + inlineListNest c = inlineListNest l := hxe
          have hc1 : inlineListNest c ≤ n := by omega
          have hc2 : 20 < (d + 1) + inlineListNest c := by omega
          have hsub : inlineSentinel.data <:+:
              (if d + 1 > 20 then inlineSentinel
               else renderInlineList c references (d + 1)).data := by
            have heq : renderInlineContent c references (d + 1) =
                (if d + 1 > 20 then inlineSentinel
                 else renderInlineList c references (d + 1)) := rfl
            rw [← heq]
            exact ih c references (d + 1) hc1 hc2
          have hes2 : ty = some "emphasis" ∨ ty = some "strong" := by simpa using hes
          rcases hes2 with he | he
          · subst he
            rw [renderInlineItem_emphasis_eq]
            refine hsub.trans ?_
            exact ⟨"*".data, "*".data, by simp [String.data_append, List.append_assoc]⟩
          · subst he
            rw [renderInlineItem_strong_eq]
            refine hsub.trans ?_
            exact ⟨"**".data, "**".data, by simp [String.data_append, List.append_assoc]⟩
      · rw [if_neg hes] at hxe
        omega

theorem inline_deep_sentinel (l : List ContentItem) (references : Option RefTable)
    (d : Nat) (h : 20 < d + inlineListNest l) :
    inlineSentinel.data <:+: (renderInlineContent l references d).data :=
  inlineDeepAux (inlineListNest l) l references d (Nat.le_refl _) h

/-! ## The block depth guard produces its sentinel -/

theorem blockSentinel_no_newline : '\n' ∉ blockSentinel.data := by decide

theorem dropNN_blockSentinel : dropNN blockSentinel = blockSentinel := by decide

theorem listDeepStep {n : Nat}
    (ih : ∀ (l : List ContentItem) (references : Option RefTable) (d : Nat) (s : String),
      listNest l ≤ n → 50 < d + listNest l →
      renderContentArray l references d = Except.ok s → blockSentinel.data <:+: s.data)
    {items : List ContentItem} {references : Option RefTable} {d : Nat} {su : String}
    (hn : listItemsNest items ≤ n)
    (hgt : 50 < d + 1 + listItemsNest items)
    (hmem : ∀ li ∈ items, ∃ t, renderItemContent li references d = Except.ok t ∧
      (dropNN t).data <:+: su.data)
    (hne : items ≠ []) :
    blockSentinel.data <:+: su.data := by
  by_cases hd1 : d + 1 > 50
  · obtain ⟨li, hli⟩ := List.exists_mem_of_ne_nil items hne
    obtain ⟨t, hrt, hinf⟩ := hmem li hli
    obtain ⟨ty, te, ti, idf, ids, url, lv, st, cd, lg, co, ic, it, ab⟩ := li
    rw [renderItemContent_eq, if_pos hd1] at hrt
    injection hrt with hrt
    rw [← hrt, dropNN_blockSentinel] at hinf
    exact hinf
  · have hd1' : d + 1 ≤ 50 := by omega
    have hpos : 0 < listItemsNest items := by omega
    obtain ⟨li, hli, hle⟩ := listItemsNest_exists hpos
    obtain ⟨t, hrt, hinf⟩ := hmem li hli
    obtain ⟨ty, te, ti, idf, ids, url, lv, st, cd, lg, co, ic, it, ab⟩ := li
    simp only [contNest.eq_def] at hle
    cases co with
    | none => simp at hle; omega
    | some cl =>
      simp only at hle
      rw [renderItemContent_eq, if_neg hd1] at hrt
      have hca : renderContentArray cl references (d + 1) = Except.ok t := by
        rw [renderContentArray, if_neg hd1]
        exact hrt
      have hsent : blockSentinel.data <:+: t.data := by
        refine ih cl references (d + 1) t (by omega) (by omega) hca
      exact (infix_dropNNData blockSentinel_no_newline hsent).trans hinf

theorem blockDeepAux :
    ∀ (n : Nat) (l : List ContentItem) (references : Option RefTable) (d : Nat) (s : String),
      listNest l ≤ n → 50 < d + listNest l →
      renderContentArray l references d = Except.ok s →
      blockSentinel.data <:+: s.data := by
  intro n
  induction n with
  | zero =>
    intro l references d s hle hgt hok
    have hd : d > 50 := by omega
    rw [renderContentArray, if_pos hd] at hok
    injection hok with hok
    rw [← hok]
  | succ n ih =>
    intro l references d s hle hgt hok
    by_cases hd : d > 50
    · rw [renderContentArray, if_pos hd] at hok
      injection hok with hok
      rw [← hok]
    · rw [renderContentArray, if_neg hd] at hok
      have hd' : d ≤ 50 := by omega
      have hpos : 0 < listNest l := by omega
      obtain ⟨x, hx, hxe⟩ := listNest_exists hpos
      obtain ⟨sx, hbi, hinf⟩ := renderBlocks_mem hok hx
      refine List.IsInfix.trans ?_ hinf
      obtain ⟨ty, te, ti, idf, ids, url, lv, st, cd, lg, co, ic, it, ab⟩ := x
      simp only [itemNest.eq_def] at hxe
      by_cases hul : (ty == some "unorderedList" || ty == some "orderedList") = true
      · rw [if_pos hul] at hxe
        cases it with
        | none => simp at hxe; omega
        | some items =>
          cases items with
          | nil => simp at hxe; omega
          | cons li0 restItems =>
            simp only at hxe
            have hn2 : listItemsNest (li0 :: restItems) ≤ n := by omega
            have hg2 : 50 < d + 1 + listItemsNest (li0 :: restItems) := by omega
            have hor : ty = some "unorderedList" ∨ ty = some "orderedList" := by
              simpa using hul
            rcases hor with he | he
            · subst he
              rw [renderBlockItem_ulist_eq] at hbi
              rcases hu : renderUListItems (li0 :: restItems) references d with e | su <;>
                rw [hu] at hbi
              · cases hbi
              · injection hbi with hbi
                have hstep := listDeepStep ih hn2 hg2
                  (fun li hli => renderUListItems_mem hu hli) (List.cons_ne_nil li0 restItems)
                rw [← hbi, String.data_append]
                exact hstep.trans (List.prefix_append _ _).isInfix
            · subst he
              rw [renderBlockItem_olist_eq] at hbi
              rcases hu : renderOListItems (li0 :: restItems) references d 0 with e | su <;>
                rw [hu] at hbi
              · cases hbi
              · injection hbi with hbi
                have hstep := listDeepStep ih hn2 hg2
                  (fun li hli => renderOListItems_mem hu hli) (List.cons_ne_nil li0 restItems)
                rw [← hbi, String.data_append]
                exact hstep.trans (List.prefix_append _ _).isInfix
      · rw [if_neg hul] at hxe
        by_cases has : (ty == some "aside") = true
        · rw [if_pos has] at hxe
          cases co with
          | none => simp at hxe; omega
          | some c =>
            simp only at hxe
            have he : ty = some "aside" := by simpa using has
            subst he
            rw [renderBlockItem_aside_eq] at hbi
            rcases hic : (if d + 1 > 50 then Except.ok blockSentinel
                else renderBlocks c references (d + 1)) with e | ac <;> rw [hic] at hbi
            · cases hbi
            · injection hbi with hbi
              have hac : blockSentinel.data <:+: ac.data := by
                by_cases hd1 : d + 1 > 50
                · rw [if_pos hd1] at hic
                  injection hic with hic
                  rw [hic]
                · rw [if_neg hd1] at hic
                  have hca : renderContentArray c references (d + 1) = Except.ok ac := by
                    rw [renderContentArray, if_neg hd1]
                    exact hic
                  exact ih c references (d + 1) ac (by omega) (by omega) hca
              have htrim : blockSentinel.data <:+: (jsTrim ac).data :=
                @infix_trimData blockSentinel.data ac.data '[' ']'
                  (by decide) (by decide) (by decide) (by decide) hac
              have hrepl : blockSentinel.data <:+: (replNL (jsTrim ac)).data :=
                infix_replNLData blockSentinel_no_newline htrim
              rw [← hbi]
              refine hrepl.trans ?_
              exact ⟨("> [!" ++ mapAsideStyleToCallout (jsOrStr st "note") ++ "]\n> ").data,
                "\n\n".data, by simp [String.data_append, List.append_assoc]⟩
        · rw [if_neg has] at hxe
          omega

theorem block_deep_sentinel (l : List ContentItem) (references : Option RefTable)
    (d : Nat) (s : String) (h : 50 < d + listNest l)
    (hok : renderContentArray l references d = Except.ok s) :
    blockSentinel.data <:+: s.data :=
  blockDeepAux (listNest l) l references d s (Nat.le_refl _) h hok

/-! ## Sibling compositionality of the walkers -/

theorem renderInlineContent_append (xs ys : List ContentItem) (references : Option RefTable)
    (d : Nat) (hd : d ≤ 20) :
    renderInlineContent (xs ++ ys) references d =
      renderInlineContent xs references d ++ renderInlineContent ys references d := by
  have hd' : ¬d > 20 := by omega
  rw [renderInlineContent, renderInlineContent, renderInlineContent, if_neg hd', if_neg hd',
    if_neg hd']
  exact renderInlineList_append xs ys references d

theorem renderContentArray_append (xs ys : List ContentItem) (references : Option RefTable)
    (d : Nat) (hd : d ≤ 50) :
    renderContentArray (xs ++ ys) references d =
      (match renderContentArray xs references d, renderContentArray ys references d with
       | Except.ok a, Except.ok b => Except.ok (a ++ b)
       | Except.error e, _ => Except.error e
       | Except.ok _, Except.error e => Except.error e) := by
  have hd' : ¬d > 50 := by omega
  rw [renderContentArray, renderContentArray, renderContentArray, if_neg hd', if_neg hd',
    if_neg hd']
  exact renderBlocks_append xs ys references d

/-! ## Shape of the rendered document (front matter and footer) -/

theorem generateFrontMatterFromJSON_shape (jsonData : AppleDocJSON) (sourceUrl now : String) :
    ∃ y, generateFrontMatterFromJSON jsonData sourceUrl now = "---\n" ++ y ++ "\n---\n\n" :=
  ⟨_, rfl⟩

theorem renderFromJSON_shape (jsonData : AppleDocJSON) (sourceUrl now : String)
    (s : String) (h : renderFromJSON jsonData sourceUrl now = Except.ok s) :
    ∃ body, s = jsTrim (generateFrontMatterFromJSON jsonData sourceUrl now ++ body) ++
      footerStr := by
  rw [renderFromJSON] at h
  rcases hbc : generateBreadcrumbs sourceUrl with e | bc <;> rw [hbc] at h
  · cases h
  rcases hp : renderPrimary jsonData.primaryContentSections jsonData.references with e | pcs <;>
    rw [hp] at h
  · cases h
  rcases hix : renderIndexSection jsonData with e | idx <;> rw [hix] at h
  · cases h
  injection h with h
  exact ⟨renderDocBody jsonData bc pcs idx, h.symm⟩

/-- Claim C10: for every input tree, source URL and clock reading, any
string `renderFromJSON` returns begins with the front-matter block
delimited by `---` lines and ends with the fixed footer (horizontal rule,
attribution line, unofficial-content disclaimer line). -/
theorem claim_C10_front_matter_and_footer (jsonData : AppleDocJSON) (sourceUrl now s : String)
    (h : renderFromJSON jsonData sourceUrl now = Except.ok s) :
    (∃ y, generateFrontMatterFromJSON jsonData sourceUrl now = "---\n" ++ y ++ "\n---\n\n" ∧
      ("---\n" ++ y ++ "\n---").data <+: s.data) ∧
    footerStr.data <:+ s.data := by
  obtain ⟨body, hs⟩ := renderFromJSON_shape jsonData sourceUrl now s h
  constructor
  · obtain ⟨y, hy⟩ := generateFrontMatterFromJSON_shape jsonData sourceUrl now
    refine ⟨y, hy, ?_⟩
    have hdata : ("---\n" ++ y ++ "\n---").data =
        ['-', '-', '-', '\n'] ++ (y.data ++ ['\n', '-', '-', '-']) := by
      simp only [String.data_append, List.append_assoc]
    have hpre : ("---\n" ++ y ++ "\n---").data <+:
        (generateFrontMatterFromJSON jsonData sourceUrl now ++ body).data := by
      refine ⟨'\n' :: '\n' :: body.data, ?_⟩
      rw [hy]
      simp only [String.data_append, List.append_assoc]
      rfl
    have hhead : ("---\n" ++ y ++ "\n---").data.head? = some '-' := by
      rw [hdata]; rfl
    have hlast : ("---\n" ++ y ++ "\n---").data.getLast? = some '-' := by
      rw [hdata]
      rw [List.getLast?_append_of_ne_nil _ (by simp)]
      rw [List.getLast?_append_of_ne_nil _ (by simp)]
      rfl
    have htrim := prefix_trimData hhead (by decide) hlast (by decide) hpre
    rw [hs, String.data_append]
    exact htrim.trans (List.prefix_append _ _)
  · rw [hs, String.data_append]
    exact List.suffix_append _ _

/-- Witness for C10 at a concrete document, URL and clock reading. -/
theorem claim_C10_witness :
    (∃ y, generateFrontMatterFromJSON emptyDoc "https://test.com" "T" =
        "---\n" ++ y ++ "\n---\n\n" ∧
      ("---\n" ++ y ++ "\n---").data <+:
        (getOk (renderFromJSON emptyDoc "https://test.com" "T")).data) ∧
    footerStr.data <:+ (getOk (renderFromJSON emptyDoc "https://test.com" "T")).data :=
  claim_C10_front_matter_and_footer emptyDoc "https://test.com" "T"
    (getOk (renderFromJSON emptyDoc "https://test.com" "T")) (by decide)

/-- A string-extensionality helper. -/
theorem strExt {a b : String} (h : a.data = b.data) : a = b := by
  cases a
  cases b
  exact congrArg String.mk h

/-- Claim C1 (code bug): the code can raise.  Three failing inputs: a
document whose `interfaceLanguages.swift` is an empty array (reading
`swift[0].children` throws a TypeError), an unparsable source URL (the
`URL` constructor throws), and a heading block with a negative level
(`"#".repeat` throws a RangeError), all contradicting the never-raises
guarantee. -/
theorem claim_C1_render_raises :
    renderFromJSON emptySwiftDoc "https://test.com" "T" =
      Except.error "TypeError: Cannot read properties of undefined (reading 'children')" ∧
    renderFromJSON emptyDoc "" "T" = Except.error "TypeError: Invalid URL" ∧
    renderFromJSON negHeadingDoc "https://test.com" "T" =
      Except.error "RangeError: Invalid count value" :=
  ⟨by decide, by decide, by decide⟩

/-- Claim C2 counterexample: two calls that differ only in the wall-clock
reading both return strings, and the strings differ (the front-matter
timestamp line changes), so render is not deterministic across calls. -/
theorem claim_C2_counterexample :
    renderFromJSON emptyDoc "https://test.com" "2025-01-01T00:00:00.000Z" =
      Except.ok (getOk (renderFromJSON emptyDoc "https://test.com" "2025-01-01T00:00:00.000Z")) ∧
    renderFromJSON emptyDoc "https://test.com" "2026-01-01T00:00:00.000Z" =
      Except.ok (getOk (renderFromJSON emptyDoc "https://test.com" "2026-01-01T00:00:00.000Z")) ∧
    getOk (renderFromJSON emptyDoc "https://test.com" "2025-01-01T00:00:00.000Z") ≠
      getOk (renderFromJSON emptyDoc "https://test.com" "2026-01-01T00:00:00.000Z") :=
  ⟨by decide, by decide, by decide⟩

/-- Claim C2 (amended): render is a pure function of the tree, the source
URL and the clock reading; two calls with equal clock readings return
identical strings. -/
theorem claim_C2_deterministic (jsonData : AppleDocJSON) (sourceUrl : String)
    (t1 t2 : String) (h : t1 = t2) :
    renderFromJSON jsonData sourceUrl t1 = renderFromJSON jsonData sourceUrl t2 := by
  rw [h]

/-- Witness for the amended C2 at a concrete document and clock reading. -/
theorem claim_C2_deterministic_witness :
    renderFromJSON emptyDoc "https://test.com" "T" =
      renderFromJSON emptyDoc "https://test.com" "T" :=
  claim_C2_deterministic emptyDoc "https://test.com" "T" "T" rfl

/-- Claim C3: a block-node list nested (lists/asides) deeper than 50
renders with the literal sentinel `"[Content too deeply nested]"` in the
output, and rendering distributes over sibling concatenation at depths
within the limit, so siblings at shallower depth render exactly as they
would alone. -/
theorem claim_C3_block_depth_sentinel :
    (∀ (l : List ContentItem) (references : Option RefTable) (s : String),
      50 < listNest l → renderContentArray l references 0 = Except.ok s →
      blockSentinel.data <:+: s.data) ∧
    (∀ (xs ys : List ContentItem) (references : Option RefTable) (d : Nat), d ≤ 50 →
      renderContentArray (xs ++ ys) references d =
        (match renderContentArray xs references d, renderContentArray ys references d with
         | Except.ok a, Except.ok b => Except.ok (a ++ b)
         | Except.error e, _ => Except.error e
         | Except.ok _, Except.error e => Except.error e)) :=
  ⟨fun l references s h hok => block_deep_sentinel l references 0 s (by omega) hok,
   renderContentArray_append⟩

/-- Witness for C3: a 51-deep unordered-list nest renders with the block
sentinel, and the append law at a concrete sibling pair. -/
theorem claim_C3_witness :
    blockSentinel.data <:+:
      (getOk (renderContentArray [nestUList (mkPara [mkText "leaf"]) 51] none 0)).data ∧
    renderContentArray ([mkPara [mkText "sib"]] ++ [mkHeading 2 "h"]) none 0 =
      (match renderContentArray [mkPara [mkText "sib"]] none 0,
         renderContentArray [mkHeading 2 "h"] none 0 with
       | Except.ok a, Except.ok b => Except.ok (a ++ b)
       | Except.error e, _ => Except.error e
       | Except.ok _, Except.error e => Except.error e) :=
  ⟨claim_C3_block_depth_sentinel.1 [nestUList (mkPara [mkText "leaf"]) 51] none
      (getOk (renderContentArray [nestUList (mkPara [mkText "leaf"]) 51] none 0))
      (by decide) (by decide),
   claim_C3_block_depth_sentinel.2 [mkPara [mkText "sib"]] [mkHeading 2 "h"] none 0
      (by decide)⟩

/-- Claim C4: an inline-span list whose emphasis/strong nesting exceeds 20
renders with the literal sentinel `"[Inline content too deeply nested]"`
in the output, and inline rendering distributes over sibling
concatenation at depths within the limit. -/
theorem claim_C4_inline_depth_sentinel :
    (∀ (l : List ContentItem) (references : Option RefTable) (d : Nat),
      20 < d + inlineListNest l →
      inlineSentinel.data <:+: (renderInlineContent l references d).data) ∧
    (∀ (xs ys : List ContentItem) (references : Option RefTable) (d : Nat), d ≤ 20 →
      renderInlineContent (xs ++ ys) references d =
        renderInlineContent xs references d ++ renderInlineContent ys references d) :=
  ⟨inline_deep_sentinel, renderInlineContent_append⟩

/-- Witness for C4: a 21-deep emphasis nest renders with the inline
sentinel, and the append law at a concrete sibling pair. -/
theorem claim_C4_witness :
    inlineSentinel.data <:+:
      (renderInlineContent [nestEmph (mkText "hi") 21] none 0).data ∧
    renderInlineContent ([mkText "a"] ++ [mkText "b"]) none 0 =
      renderInlineContent [mkText "a"] none 0 ++ renderInlineContent [mkText "b"] none 0 :=
  ⟨claim_C4_inline_depth_sentinel.1 [nestEmph (mkText "hi") 21] none 0 (by decide),
   claim_C4_inline_depth_sentinel.2 [mkText "a"] [mkText "b"] none 0 (by decide)⟩

/-- Claim C5 counterexample: a paragraph of plain text nested at block
depth 21 (well within the block limit of 50) renders as the inline
sentinel instead of its text, because the inline walker starts at the
block depth rather than 0. -/
theorem claim_C5_counterexample :
    inlineSentinel.data <:+:
      (getOk (renderContentArray [nestUList (mkPara [mkText "hi"]) 21] none 0)).data ∧
    ¬ ("hi".data <:+:
      (getOk (renderContentArray [nestUList (mkPara [mkText "hi"]) 21] none 0)).data) ∧
    listNest [nestUList (mkPara [mkText "hi"]) 21] ≤ 50 :=
  ⟨by decide, by decide, by decide⟩

/-- Claim C5 (amended): a paragraph's inline content is rendered with the
inline depth counter starting at the paragraph's block depth, not reset
to 0. -/
theorem claim_C5_paragraph_inline_depth (x : ContentItem) (references : Option RefTable)
    (d : Nat) (ic : List ContentItem) (h1 : x.type = some "paragraph")
    (h2 : x.inlineContent = some ic) :
    renderBlockItem x references d =
      Except.ok (renderInlineContent ic references d ++ "\n\n") := by
  obtain ⟨ty, te, ti, idf, ids, url, lv, st, cd, lg, co, icf, it, ab⟩ := x
  simp only [ContentItem.type] at h1
  simp only [ContentItem.inlineContent] at h2
  subst h1
  subst h2
  rw [renderBlockItem_paragraph_eq]

/-- Witness for the amended C5: a concrete paragraph at block depth 21
renders its inline content at depth 21. -/
theorem claim_C5_paragraph_inline_depth_witness :
    renderBlockItem (mkPara [mkText "a"]) none 21 =
      Except.ok (renderInlineContent [mkText "a"] none 21 ++ "\n\n") :=
  claim_C5_paragraph_inline_depth (mkPara [mkText "a"]) none 21 [mkText "a"] rfl rfl

/-- Claim C6 counterexample: a `doc://` identifier with a non-Apple
reverse-domain is returned unchanged (the rewrite only fires for
`doc://com.apple.`), and a reference entry whose `url` field exists but
is the empty string is ignored (JS truthiness), not returned verbatim. -/
theorem claim_C6_counterexample :
    convertIdentifierToURL "doc://org.example/documentation/foo" none =
      "doc://org.example/documentation/foo" ∧
    convertIdentifierToURL "doc://org.example/documentation/foo" none ≠
      "/documentation/foo" ∧
    convertIdentifierToURL "x" (some [("x",
      ContentItem.mk none none none none none (some "") none none none none
        none none none none)]) = "x" :=
  ⟨by decide, by decide, by decide⟩

/-- Claim C6 (amended): URL resolution returns `refs[id].url` verbatim
when that field exists and is nonempty; otherwise rewrites
`doc://com.apple.SwiftUI/documentation/<rest>` to
`/documentation/<rest>`; otherwise, for other `doc://com.apple.`
identifiers, rewrites to `/documentation/<capture>` (shown at a concrete
instance); otherwise returns the identifier unchanged. -/
theorem claim_C6_url_resolution :
    (∀ (id : String) (references : Option RefTable) (r : ContentItem) (u : String),
      refLookup references id = some r → r.url = some u → u ≠ "" →
      convertIdentifierToURL id references = u) ∧
    (∀ (rest : String) (references : Option RefTable),
      jsStrTruthy ((refLookup references
        ("doc://com.apple.SwiftUI/documentation/" ++ rest)).bind ContentItem.url) = false →
      convertIdentifierToURL ("doc://com.apple.SwiftUI/documentation/" ++ rest) references =
        "/documentation/" ++ rest) ∧
    convertIdentifierToURL "doc://com.apple.documentation/documentation/swift/array" none =
      "/documentation/swift/array" ∧
    (∀ (id : String) (references : Option RefTable),
      jsStrTruthy ((refLookup references id).bind ContentItem.url) = false →
      ("doc://com.apple.".data.isPrefixOf id.data) = false →
      convertIdentifierToURL id references = id) := by
  refine ⟨?_, ?_, by decide, ?_⟩
  · intro id references r u hr hu hne
    have hemp : u.isEmpty = false := by
      cases he : u.isEmpty
      · rfl
      · exact absurd ((String.isEmpty_iff u).mp he) hne
    rw [convertIdentifierToURL]
    rw [hr]
    simp [Option.bind, hu, jsStrTruthy, hemp]
  · intro rest references htr
    have hp : swiftUIPrefix.data.isPrefixOf
        ("doc://com.apple.SwiftUI/documentation/" ++ rest).data = true := by
      rw [String.data_append]
      exact List.isPrefixOf_iff_prefix.mpr ⟨rest.data, rfl⟩
    rw [convertIdentifierToURL, htr]
    simp only [Bool.false_eq_true, if_false, hp, if_true]
    apply strExt
    show "/documentation/".data ++
        ("doc://com.apple.SwiftUI/documentation/" ++ rest).data.drop
          swiftUIPrefix.data.length =
      ("/documentation/" ++ rest).data
    rw [String.data_append, String.data_append]
    have hdrop : (swiftUIPrefix.data ++ rest.data).drop swiftUIPrefix.data.length =
        rest.data := List.drop_left _ _
    exact congrArg ("/documentation/".data ++ ·) hdrop
  · intro id references htr hpre
    have h1 : swiftUIPrefix.data.isPrefixOf id.data = false := by
      cases hq : swiftUIPrefix.data.isPrefixOf id.data
      · rfl
      · have h2 : "doc://com.apple.".data <+: id.data :=
          List.IsPrefix.trans (by decide) (List.isPrefixOf_iff_prefix.mp hq)
        have h3 := List.isPrefixOf_iff_prefix.mpr h2
        rw [hpre] at h3
        cases h3
    rw [convertIdentifierToURL, htr]
    simp [h1, hpre]

/-- Witness for the amended C6 at concrete identifiers and tables. -/
theorem claim_C6_url_resolution_witness :
    convertIdentifierToURL "a" (some [("a",
      ContentItem.mk none none none none none (some "/u") none none none none
        none none none none)]) = "/u" ∧
    convertIdentifierToURL ("doc://com.apple.SwiftUI/documentation/" ++ "swiftui/view")
      none = "/documentation/" ++ "swiftui/view" ∧
    convertIdentifierToURL "plain" none = "plain" :=
  ⟨claim_C6_url_resolution.1 "a" (some [("a",
      ContentItem.mk none none none none none (some "/u") none none none none
        none none none none)])
      (ContentItem.mk none none none none none (some "/u") none none none none
        none none none none) "/u" rfl rfl (by decide),
   claim_C6_url_resolution.2.1 "swiftui/view" none (by decide),
   claim_C6_url_resolution.2.2.2 "plain" none (by decide) (by decide)⟩

/-- Claim C7 counterexample: for a segment with a disambiguator and no
parentheses, the camelCase conversion applies to the unstripped segment:
the disambiguator is not removed first, contradicting strip-then-space. -/
theorem claim_C7_counterexample :
    extractTitleFromIdentifier "someProperty-63925" = "some Property-63925" ∧
    extractTitleFromIdentifier "someProperty-63925" ≠ "some Property" :=
  ⟨by decide, by decide⟩

/-- Claim C7 (amended): the heuristic takes the final path segment; when
the segment minus a trailing `-\w+` disambiguator contains both
parentheses it is returned verbatim as a signature; otherwise the
camelCase spacing and whitespace collapse apply to the whole unstripped
segment.  The spec's three examples hold. -/
theorem claim_C7_title_heuristic :
    (∀ id : String, extractTitleFromIdentifier id = extractTitleAmendedSpec id) ∧
    extractTitleFromIdentifier "init(exactly:)-63925" = "init(exactly:)" ∧
    extractTitleFromIdentifier "somePropertyName" = "some Property Name" ∧
    extractTitleFromIdentifier "XMLHttpRequest" = "XMLHttp Request" := by
  refine ⟨?_, by decide, by decide, by decide⟩
  intro id
  rw [extractTitleFromIdentifier, extractTitleAmendedSpec, sigOf]
  cases h : titleCapture ((splitSlash id).getLastD "").data with
  | none => simp
  | some cap =>
    dsimp only
    by_cases hc : (cap.contains '(' && cap.contains ')') = true
    · rw [if_pos hc, if_pos hc]
    · rw [if_neg hc, if_neg hc]

theorem renderInlineItem_reference_eq (te ti idf : Option String)
    (ids : Option (List String)) (url : Option String) (lv : Option Int)
    (st : Option String) (cd : Option CodeVal) (lg : Option String)
    (co ic it : Option (List ContentItem)) (ab : Option (List TextFragment))
    (references : Option RefTable) (d : Nat) :
    renderInlineItem (.mk (some "reference") te ti idf ids url lv st cd lg co ic it ab)
        references d =
      "[" ++ jsOrStr ti (jsOrStr te "") ++ "](" ++
        (if jsStrTruthy idf then convertIdentifierToURL (idf.getD "") references
         else "") ++ ")" := by
  rw [renderInlineItem.eq_def]
  rfl

/-- Claim C8 counterexample: a reference span with no title and no text
whose identifier has a reference-table entry with a title renders with an
empty link title; the table title is not consulted by the inline walker. -/
theorem claim_C8_counterexample :
    renderInlineContent [mkRefSpan "id1"] (some [("id1",
      ContentItem.mk none none (some "Table Title") none none none none none none none
        none none none none)]) 0 = "[](id1)" ∧
    ¬ ("Table Title".data <:+:
      (renderInlineContent [mkRefSpan "id1"] (some [("id1",
        ContentItem.mk none none (some "Table Title") none none none none none none none
          none none none none)]) 0).data) :=
  ⟨by decide, by decide⟩

/-- Claim C8 (amended): an inline reference span's displayed title is the
node's own title, else the node's own text, else empty; the reference
table supplies only the URL.  (Reference-table titles are used by the
topic/see-also/relationship renderers, not the inline walker.) -/
theorem claim_C8_inline_reference_title (x : ContentItem) (references : Option RefTable)
    (d : Nat) (hd : d ≤ 20) (h1 : x.type = some "reference") :
    renderInlineContent [x] references d =
      "[" ++ jsOrStr x.title (jsOrStr x.text "") ++ "](" ++
        (if jsStrTruthy x.identifier then
          convertIdentifierToURL (x.identifier.getD "") references
         else "") ++ ")" := by
  obtain ⟨ty, te, ti, idf, ids, url, lv, st, cd, lg, co, ic, it, ab⟩ := x
  simp only [ContentItem.type] at h1
  subst h1
  simp only [ContentItem.title, ContentItem.text, ContentItem.identifier]
  rw [renderInlineContent, if_neg (by omega), renderInlineList,
    renderInlineItem_reference_eq, renderInlineList]
  rw [String.append_empty]

/-- Witness for the amended C8: a reference span with an explicit title
override displays it; the node text is used when the title is absent. -/
theorem claim_C8_inline_reference_title_witness :
    renderInlineContent [mkRefSpan "id9"] none 0 =
      "[" ++ jsOrStr (mkRefSpan "id9").title (jsOrStr (mkRefSpan "id9").text "") ++ "](" ++
        (if jsStrTruthy (mkRefSpan "id9").identifier then
          convertIdentifierToURL ((mkRefSpan "id9").identifier.getD "") none
         else "") ++ ")" :=
  claim_C8_inline_reference_title (mkRefSpan "id9") none 0 (by decide) rfl

theorem relItems_eq_joinMap (ids : List String) (variants : Option (List Variant))
    (references : Option RefTable) :
    relItems ids variants references = joinMapStr (relLine variants references) ids := by
  induction ids with
  | nil => rfl
  | cons id rest ih => rw [relItems, joinMapStr, ih]

theorem topicItems_eq_joinMap (ids : List String) (variants : Option (List Variant))
    (references : Option RefTable) :
    topicItems ids variants references = joinMapStr (topicLine variants references) ids := by
  induction ids with
  | nil => rfl
  | cons id rest ih => rw [topicItems, joinMapStr, ih]

/-- Claim C9 counterexample: a see-also section whose identifier has a
reference-table entry carrying an abstract renders the plain link line
without the abstract snippet (only topic sections append abstracts). -/
theorem claim_C9_counterexample :
    renderSeeAlso [⟨"Related", some ["doc1"]⟩] none (some [("doc1",
      ContentItem.mk none none (some "T") none none (some "/u") none none none none
        none none none (some [⟨some "Great docs.", some "text"⟩]))]) =
      "## Related\n\n- [T](/u)\n\n" ∧
    ¬ ("Great docs.".data <:+:
      (renderSeeAlso [⟨"Related", some ["doc1"]⟩] none (some [("doc1",
        ContentItem.mk none none (some "T") none none (some "/u") none none none none
          none none none (some [⟨some "Great docs.", some "text"⟩]))])).data) :=
  ⟨by decide, by decide⟩

/-- Claim C9 (amended): topic, see-also and relationship sections with a
nonempty title and an identifier list emit `## <title>` and exactly one
`- [<resolvedTitle>](<resolvedUrl>)` line per identifier, in source order
and without deduplication; only topic-section items append an abstract
snippet, when a variant or reference entry supplies a nonempty one. -/
theorem claim_C9_section_lists :
    (∀ (t : String) (ids : List String) (variants : Option (List Variant))
       (references : Option RefTable), ¬t.isEmpty = true →
      renderSeeAlso [⟨t, some ids⟩] variants references =
        "## " ++ t ++ "\n\n" ++ joinMapStr (relLine variants references) ids ++ "\n") ∧
    (∀ (t : String) (ids : List String) (variants : Option (List Variant))
       (references : Option RefTable), ¬t.isEmpty = true →
      renderRelationships [ContentItem.mk none none (some t) none (some ids) none none
        none none none none none none none] variants references =
        "## " ++ t ++ "\n\n" ++ joinMapStr (relLine variants references) ids ++ "\n") ∧
    (∀ (t : String) (ids : List String) (variants : Option (List Variant))
       (references : Option RefTable), ¬t.isEmpty = true →
      renderTopicSections [⟨t, some ids⟩] variants references =
        "## " ++ t ++ "\n\n" ++ joinMapStr (topicLine variants references) ids ++ "\n") ∧
    (∀ (references : Option RefTable) (id : String) (r : ContentItem),
      refLookup references id = some r →
      topicLine none references id =
        "- [" ++ jsOrStr r.title (extractTitleFromIdentifier id) ++ "](" ++
          convertIdentifierToURL id references ++ ")" ++
          (if (match r.abstract with
               | some l => joinTexts l
               | none => "").isEmpty then ""
           else " " ++ (match r.abstract with
                        | some l => joinTexts l
                        | none => "")) ++ "\n") := by
  refine ⟨?_, ?_, ?_, ?_⟩
  · intro t ids variants references ht
    rw [renderSeeAlso]
    dsimp only
    rw [if_neg ht, renderSeeAlso, relItems_eq_joinMap]
    rw [String.append_empty]
  · intro t ids variants references ht
    rw [renderRelationships]
    have hguard : (jsStrTruthy (ContentItem.mk none none (some t) none (some ids) none none
        none none none none none none none).title &&
        ((ContentItem.mk none none (some t) none (some ids) none none
          none none none none none none none).identifiers).isSome) = true := by
      simp only [ContentItem.title, ContentItem.identifiers, jsStrTruthy, Option.isSome]
      simp [ht]
    rw [if_pos hguard, renderRelationships, relItems_eq_joinMap]
    simp only [ContentItem.title, ContentItem.identifiers, Option.getD]
    simp [String.append_assoc]
  · intro t ids variants references ht
    rw [renderTopicSections]
    dsimp only
    rw [if_neg ht, renderTopicSections, topicItems_eq_joinMap]
    simp [String.append_assoc]
  · intro references id r hr
    rw [topicLine]
    simp only [Option.none_bind, hr, Option.some_bind, Option.isSome_none, Option.isSome_some,
      Bool.false_or, if_true]
    rfl

/-- Witness for the amended C9 at concrete sections, including a
duplicated identifier (rendered twice) and a reference entry with an
abstract. -/
theorem claim_C9_section_lists_witness :
    renderSeeAlso [⟨"See", some ["a", "b", "a"]⟩] none none =
      "## " ++ "See" ++ "\n\n" ++ joinMapStr (relLine none none) ["a", "b", "a"] ++ "\n" ∧
    renderRelationships [ContentItem.mk none none (some "Rel") none (some ["a", "a"]) none
      none none none none none none none none] none none =
      "## " ++ "Rel" ++ "\n\n" ++ joinMapStr (relLine none none) ["a", "a"] ++ "\n" ∧
    renderTopicSections [⟨"Topics", some ["a"]⟩] none none =
      "## " ++ "Topics" ++ "\n\n" ++ joinMapStr (topicLine none none) ["a"] ++ "\n" ∧
    topicLine none (some [("z",
      ContentItem.mk none none (some "ZT") none none none none none none none
        none none none (some [⟨some "Abs.", none⟩]))]) "z" =
      "- [" ++ jsOrStr (ContentItem.mk none none (some "ZT") none none none none none none
          none none none none (some [⟨some "Abs.", none⟩]) : ContentItem).title
          (jsOrStr none "") ++ "](" ++
        convertIdentifierToURL "z" (some [("z",
          ContentItem.mk none none (some "ZT") none none none none none none none
            none none none (some [⟨some "Abs.", none⟩]))]) ++ ")" ++
        (if (match (ContentItem.mk none none (some "ZT") none none none none none none
            none none none none (some [⟨some "Abs.", none⟩]) : ContentItem).abstract with
             | some l => joinTexts l
             | none => "").isEmpty then ""
         else " " ++ (match (ContentItem.mk none none (some "ZT") none none none none none
              none none none none none (some [⟨some "Abs.", none⟩]) : ContentItem).abstract with
                      | some l => joinTexts l
                      | none => "")) ++ "\n" := by
  refine ⟨claim_C9_section_lists.1 "See" ["a", "b", "a"] none none (by decide),
    claim_C9_section_lists.2.1 "Rel" ["a", "a"] none none (by decide),
    claim_C9_section_lists.2.2.1 "Topics" ["a"] none none (by decide), ?_⟩
  have h4 := claim_C9_section_lists.2.2.2 (some [("z",
    ContentItem.mk none none (some "ZT") none none none none none none none
      none none none (some [⟨some "Abs.", none⟩]))]) "z"
    (ContentItem.mk none none (some "ZT") none none none none none none none
      none none none (some [⟨some "Abs.", none⟩])) rfl
  exact h4
